import Mathlib

/-!
Verification of the asynchronous job-processing core of the pdf-quick-search
backend: text chunking and result aggregation
(`app/services/typo_checker_service.py`), the extraction queue and its retry
logic (`app/services/extraction_service.py`), the two adaptive-polling worker
ticks (`app/worker.py`, `app/typo_worker.py`), the typo-check enqueue/cancel
routes (`app/routes/typo_checker.py`), and the token-bucket rate limiter
(`app/utils/rate_limiter.py`).

Texts are modelled as `List Char`, timestamps as natural numbers (seconds),
database tables as lists of records, and Python exceptions as `Except` values.
The float token counter of the rate limiter is modelled over `ℚ`.
-/

namespace PdfQS

/-! ## Text chunking (`TypoCheckerService._chunk_text`) -/

/-- Does `pat` occur in `s` starting at index `i`?  (Python `s[i:].startswith(pat)`.) -/
def matchesAt (s pat : List Char) (i : Nat) : Bool :=
  pat.isPrefixOf (s.drop i)

/-- Python `str.rfind`: the highest index at which `pat` occurs in `s`
as a contiguous substring, or `-1` when it does not occur. -/
def pyRfind (s pat : List Char) : Int :=
  match ((List.range (s.length + 1)).filter (fun i => matchesAt s pat i)).getLast? with
  | some i => (i : Int)
  | none => -1

/-- The sentence terminators searched by `_chunk_text`
(`". ", "? ", "! ", ".\n", "?\n", "!\n"`). -/
def boundaryChars : List (List Char) :=
  [['.', ' '], ['?', ' '], ['!', ' '], ['.', '\n'], ['?', '\n'], ['!', '\n']]

/-- The `best_boundary` fold of `_chunk_text`: the largest `rfind` result over
the six sentence terminators, starting from `-1`. -/
def bestBoundary (searchText : List Char) : Int :=
  boundaryChars.foldl
    (fun best pat =>
      let pos := pyRfind searchText pat
      if pos > best then pos else best)
    (-1)

/-- End position chosen by one iteration of the `while` loop of `_chunk_text`:
`end_pos = min(current_pos + chunk_size, text_len)`, and when that is not the
end of the text, a sentence boundary is searched in the last 20% of the window
(`search_start = current_pos + int(chunk_size * 0.8)`, rendered in integer
arithmetic) and, if found at a positive offset, the end moves to it. -/
def chunkEnd (text : List Char) (chunkSize currentPos : Nat) : Nat :=
  let endPos0 := min (currentPos + chunkSize) text.length
  if endPos0 < text.length then
    let searchStart := currentPos + chunkSize * 8 / 10
    let searchText := (text.drop searchStart).take (endPos0 - searchStart)
    let bb := bestBoundary searchText
    if bb > 0 then searchStart + bb.toNat + 1 else endPos0
  else endPos0

/-- The `while current_pos < text_len` loop of `_chunk_text`, with explicit
fuel (the source loop advances `current_pos` by at least one per iteration
whenever `chunk_size ≥ 1`, so `text.length` fuel suffices; this is proved
below). -/
def chunkLoop (text : List Char) (chunkSize : Nat) : Nat → Nat → List (List Char)
  | 0, _ => []
  | fuel + 1, currentPos =>
    if currentPos < text.length then
      let endPos := chunkEnd text chunkSize currentPos
      (text.drop currentPos).take (endPos - currentPos) ::
        chunkLoop text chunkSize fuel endPos
    else []

/-- `TypoCheckerService._chunk_text(text, chunk_size)`. -/
def chunk_text (text : List Char) (chunkSize : Nat) : List (List Char) :=
  if text.length ≤ chunkSize then [text]
  else chunkLoop text chunkSize text.length 0

/-! ### Bounds for the chunk boundary search -/

theorem length_le_of_isPrefixOf :
    ∀ (l₁ l₂ : List Char), l₁.isPrefixOf l₂ = true → l₁.length ≤ l₂.length := by
  intro l₁
  induction l₁ with
  | nil => intro l₂ _; simp
  | cons a t ih =>
    intro l₂ h
    cases l₂ with
    | nil => simp [List.isPrefixOf] at h
    | cons b t₂ =>
      simp only [List.isPrefixOf, Bool.and_eq_true] at h
      simpa using ih t₂ h.2

theorem pyRfind_bound (s pat : List Char) (k : Nat)
    (h : pyRfind s pat = (k : Int)) : k + pat.length ≤ s.length := by
  unfold pyRfind at h
  set l := ((List.range (s.length + 1)).filter (fun i => matchesAt s pat i)) with hl
  cases hlast : l.getLast? with
  | none => rw [hlast] at h; simp at h
  | some i =>
    rw [hlast] at h
    simp only [Int.ofNat_inj] at h
    have hik : i = k := by exact_mod_cast h
    subst hik
    have hmem : i ∈ l := List.mem_of_mem_getLast? hlast
    rw [hl, List.mem_filter] at hmem
    obtain ⟨hrange, hmatch⟩ := hmem
    have hlen : pat.length ≤ (s.drop i).length :=
      length_le_of_isPrefixOf pat (s.drop i) hmatch
    rw [List.length_drop] at hlen
    have : i < s.length + 1 := List.mem_range.mp hrange
    omega

theorem bestBoundary_exists (s : List Char) (k : Nat)
    (h : bestBoundary s = (k : Int)) :
    ∃ pat ∈ boundaryChars, pyRfind s pat = (k : Int) := by
  have main : ∀ (pats : List (List Char)) (init : Int),
      pats.foldl
        (fun best pat =>
          let pos := pyRfind s pat
          if pos > best then pos else best) init = (k : Int) →
      init = (k : Int) ∨ ∃ pat ∈ pats, pyRfind s pat = (k : Int) := by
    intro pats
    induction pats with
    | nil => intro init h0; exact Or.inl h0
    | cons p t ih =>
      intro init h0
      simp only [List.foldl_cons] at h0
      rcases ih _ h0 with h1 | h1
      · by_cases hc : pyRfind s p > init
        · simp only [hc, if_pos] at h1
          exact Or.inr ⟨p, List.mem_cons_self p t, h1⟩
        · simp only [if_neg hc] at h1
          exact Or.inl h1
      · obtain ⟨pat, hpat, hfind⟩ := h1
        exact Or.inr ⟨pat, List.mem_cons_of_mem p hpat, hfind⟩
  rcases main boundaryChars (-1) h with h1 | h1
  · omega
  · exact h1

theorem bestBoundary_le (s : List Char) (k : Nat)
    (h : bestBoundary s = (k : Int)) : k + 2 ≤ s.length := by
  obtain ⟨pat, hpat, hfind⟩ := bestBoundary_exists s k h
  have hlen : pat.length = 2 := by
    fin_cases hpat <;> rfl
  have := pyRfind_bound s pat k hfind
  omega

/-- The end position of one loop iteration advances past `currentPos`,
stays within the text, and moves at most `chunkSize` characters. -/
theorem chunkEnd_bounds (text : List Char) (chunkSize currentPos : Nat)
    (hsize : 1 ≤ chunkSize) (hpos : currentPos < text.length) :
    currentPos < chunkEnd text chunkSize currentPos ∧
    chunkEnd text chunkSize currentPos ≤ text.length ∧
    chunkEnd text chunkSize currentPos - currentPos ≤ chunkSize := by
  unfold chunkEnd
  set endPos0 := min (currentPos + chunkSize) text.length with hend0
  have h1 : currentPos < endPos0 := by omega
  have h2 : endPos0 ≤ text.length := by omega
  have h3 : endPos0 ≤ currentPos + chunkSize := by omega
  by_cases hlt : endPos0 < text.length
  · simp only [hlt, if_pos]
    set searchStart := currentPos + chunkSize * 8 / 10 with hss
    set searchText := (text.drop searchStart).take (endPos0 - searchStart) with hst
    by_cases hbb : bestBoundary searchText > 0
    · simp only [hbb, if_pos]
      set bb := bestBoundary searchText with hbbdef
      have hb2 : bb.toNat + 2 ≤ searchText.length := by
        have hkk : bestBoundary searchText = ((bb.toNat : Nat) : Int) := by
          rw [← hbbdef]; omega
        exact bestBoundary_le searchText bb.toNat hkk
      have hstlen : searchText.length ≤ endPos0 - searchStart := by
        rw [hst, List.length_take]
        omega
      have hcs : currentPos ≤ searchStart := by omega
      constructor
      · omega
      constructor
      · omega
      · omega
    · simp only [hbb, if_neg, if_false]
      omega
  · simp only [hlt, if_neg, if_false]
    omega

/-- Concatenating the loop's chunks from any start position recovers the
remaining suffix of the text, provided the fuel covers the remaining length. -/
theorem chunkLoop_join (text : List Char) (chunkSize : Nat)
    (hsize : 1 ≤ chunkSize) :
    ∀ (fuel currentPos : Nat), text.length - currentPos ≤ fuel →
      (chunkLoop text chunkSize fuel currentPos).flatten = text.drop currentPos := by
  intro fuel
  induction fuel with
  | zero =>
    intro currentPos hfuel
    have : text.length ≤ currentPos := by omega
    simp [chunkLoop, List.drop_of_length_le this]
  | succ fuel ih =>
    intro currentPos hfuel
    by_cases hpos : currentPos < text.length
    · obtain ⟨hlo, hhi, _⟩ := chunkEnd_bounds text chunkSize currentPos hsize hpos
      set endPos := chunkEnd text chunkSize currentPos with he
      have hrest : (chunkLoop text chunkSize fuel endPos).flatten = text.drop endPos :=
        ih endPos (by omega)
      simp only [chunkLoop, hpos, if_pos, List.flatten_cons, hrest]
      have hdd : text.drop endPos = List.drop (endPos - currentPos) (text.drop currentPos) := by
        rw [List.drop_drop]
        congr 1
        omega
      rw [hdd, List.take_append_drop]
    · simp [chunkLoop, hpos, List.drop_of_length_le (by omega : text.length ≤ currentPos)]

/-- Every chunk the loop produces is non-empty and no longer than `chunkSize`,
provided the fuel covers the remaining length. -/
theorem chunkLoop_bounds (text : List Char) (chunkSize : Nat)
    (hsize : 1 ≤ chunkSize) :
    ∀ (fuel currentPos : Nat), text.length - currentPos ≤ fuel →
      ∀ c ∈ chunkLoop text chunkSize fuel currentPos,
        c ≠ [] ∧ c.length ≤ chunkSize := by
  intro fuel
  induction fuel with
  | zero => intro currentPos _ c hc; simp [chunkLoop] at hc
  | succ fuel ih =>
    intro currentPos hfuel c hc
    by_cases hpos : currentPos < text.length
    · simp only [chunkLoop, hpos, if_pos, List.mem_cons] at hc
      obtain ⟨hlo, hhi, hsz⟩ := chunkEnd_bounds text chunkSize currentPos hsize hpos
      set endPos := chunkEnd text chunkSize currentPos with he
      rcases hc with hc | hc
      · subst hc
        have hlen :
            ((text.drop currentPos).take (endPos - currentPos)).length
              = endPos - currentPos := by
          rw [List.length_take, List.length_drop]
          omega
        constructor
        · intro hnil
          rw [hnil] at hlen
          simp at hlen
          omega
        · omega
      · exact ih endPos (by omega) c hc
    · simp [chunkLoop, hpos] at hc

/-- C2: for every text and every `max_chunk_size ≥ 1`, concatenating the
chunks of `_chunk_text` in order reproduces the text exactly, whatever
boundaries the sentence-terminator search chooses; and when the text already
fits in one chunk the result is the single-element list `[text]`. -/
theorem chunk_text_concat (text : List Char) (chunkSize : Nat)
    (hsize : 1 ≤ chunkSize) :
    (chunk_text text chunkSize).flatten = text ∧
    (text.length ≤ chunkSize → chunk_text text chunkSize = [text]) := by
  constructor
  · unfold chunk_text
    by_cases h : text.length ≤ chunkSize
    · simp [h]
    · simp only [h, if_neg, if_false]
      simpa using chunkLoop_join text chunkSize hsize text.length 0 (by omega)
  · intro h
    simp [chunk_text, h]

/-- Witness for C2 on the concrete text `"abcdefghij. klmnop"` with
`max_chunk_size = 12` (a case where the boundary search fires). -/
theorem chunk_text_concat_witness :
    1 ≤ 12 ∧
    ((chunk_text "abcdefghij. klmnop".toList 12).flatten
        = "abcdefghij. klmnop".toList ∧
      ("abcdefghij. klmnop".toList.length ≤ 12 →
        chunk_text "abcdefghij. klmnop".toList 12
          = ["abcdefghij. klmnop".toList])) :=
  ⟨by decide, chunk_text_concat "abcdefghij. klmnop".toList 12 (by decide)⟩

/-- Counterexample to C10 as stated: on the empty text (with
`max_chunk_size = 2`), `_chunk_text` returns the single chunk `""`, which is
empty, so not every returned chunk is non-empty. -/
theorem chunk_text_empty_cex : chunk_text ([] : List Char) 2 = [[]] := by
  decide

/-- C10 (amended): for every non-empty text and every `max_chunk_size ≥ 2`,
every chunk returned by `_chunk_text` is non-empty and has length at most
`max_chunk_size`, including the chunks whose boundary was moved back to a
sentence terminator. -/
theorem chunk_text_chunks_bounded (text : List Char) (chunkSize : Nat)
    (hsize : 2 ≤ chunkSize) (hne : text ≠ []) :
    ∀ c ∈ chunk_text text chunkSize, c ≠ [] ∧ c.length ≤ chunkSize := by
  intro c hc
  unfold chunk_text at hc
  by_cases h : text.length ≤ chunkSize
  · simp only [h, if_pos, List.mem_singleton] at hc
    subst hc
    exact ⟨hne, h⟩
  · simp only [h, if_neg, if_false] at hc
    exact chunkLoop_bounds text chunkSize (by omega) text.length 0 (by omega) c hc

/-- Witness for the amended C10 on the concrete text
`"abcdefghij. klmnop"` with `max_chunk_size = 12`. -/
theorem chunk_text_chunks_bounded_witness :
    2 ≤ 12 ∧ "abcdefghij. klmnop".toList ≠ [] ∧
    (∀ c ∈ chunk_text "abcdefghij. klmnop".toList 12,
      c ≠ [] ∧ c.length ≤ 12) :=
  ⟨by decide, by decide,
    chunk_text_chunks_bounded "abcdefghij. klmnop".toList 12
      (by decide) (by decide)⟩

/-! ## Result aggregation (`TypoCheckerService.check_text`, chunk loop) -/

/-- One typo issue as returned by a provider
(`original`, `corrected`, `position`, plus fields not used by aggregation). -/
structure Issue where
  original : List Char
  corrected : List Char
  position : Int
deriving DecidableEq

/-- The provider's answer for one chunk
(`TypoCheckResponse`-shaped: success flag, corrected text, issues). -/
structure ChunkCheckResult where
  success : Bool
  corrected_text : List Char
  error_message : Option (List Char)
  issues : List Issue
deriving DecidableEq

/-- The per-chunk loop of `TypoCheckerService.check_text`: each chunk is sent
to the provider; if a chunk fails the whole check fails (`none`); otherwise
the corrected chunks are collected in order and every issue's position is
shifted by `current_position`, the cumulative length of the previous
original chunks. -/
def processChunks (checkTypo : List Char → ChunkCheckResult) :
    List (List Char) → Int → Option (List (List Char) × List Issue)
  | [], _ => some ([], [])
  | chunk :: rest, currentPosition =>
    let result := checkTypo chunk
    if result.success then
      match processChunks checkTypo rest (currentPosition + (chunk.length : Int)) with
      | some (cs, iss) =>
          some (result.corrected_text :: cs,
            result.issues.map
              (fun i => { i with position := i.position + currentPosition }) ++ iss)
      | none => none
    else none

theorem processChunks_isSome (checkTypo : List Char → ChunkCheckResult) :
    ∀ (chunks : List (List Char)) (p : Int),
      (∀ c ∈ chunks, (checkTypo c).success = true) →
      ∃ out, processChunks checkTypo chunks p = some out := by
  intro chunks
  induction chunks with
  | nil => intro p _; exact ⟨([], []), rfl⟩
  | cons c rest ih =>
    intro p hsucc
    have hc : (checkTypo c).success = true := hsucc c (List.mem_cons_self c rest)
    obtain ⟨⟨cs, iss⟩, hout⟩ :=
      ih (p + (c.length : Int)) (fun x hx => hsucc x (List.mem_cons_of_mem c hx))
    refine ⟨((checkTypo c).corrected_text :: cs,
      (checkTypo c).issues.map
        (fun i => { i with position := i.position + p }) ++ iss), ?_⟩
    simp only [processChunks, hc, if_pos, hout]

theorem processChunks_positions_aux (checkTypo : List Char → ChunkCheckResult) :
    ∀ (chunks : List (List Char)) (p : Int),
      (∀ c ∈ chunks, (checkTypo c).success = true) →
      ∀ (i : Nat) (hi : i < chunks.length) (issue : Issue),
        issue ∈ (checkTypo (chunks.get ⟨i, hi⟩)).issues →
        ∃ out, processChunks checkTypo chunks p = some out ∧
          { issue with position :=
              issue.position + p + (((chunks.take i).map List.length).sum : Int) }
            ∈ out.2 := by
  intro chunks
  induction chunks with
  | nil => intro p _ i hi; simp at hi
  | cons c rest ih =>
    intro p hsucc i hi issue hissue
    have hc : (checkTypo c).success = true := hsucc c (List.mem_cons_self c rest)
    have hrest : ∀ x ∈ rest, (checkTypo x).success = true :=
      fun x hx => hsucc x (List.mem_cons_of_mem c hx)
    obtain ⟨⟨cs, iss⟩, hrestOut⟩ :=
      processChunks_isSome checkTypo rest (p + (c.length : Int)) hrest
    cases i with
    | zero =>
      refine ⟨((checkTypo c).corrected_text :: cs,
        (checkTypo c).issues.map
          (fun i => { i with position := i.position + p }) ++ iss),
        by simp only [processChunks, hc, if_pos, hrestOut], ?_⟩
      apply List.mem_append_left
      have hm : ({ issue with position := issue.position + p } : Issue)
          ∈ (checkTypo c).issues.map
              (fun i => { i with position := i.position + p }) :=
        List.mem_map_of_mem _ hissue
      have heq : ({ issue with position := issue.position + p } : Issue)
          = { issue with position :=
              issue.position + p +
                (((((c :: rest)).take 0).map List.length).sum : Int) } := by
        simp
      rw [← heq]
      exact hm
    | succ i' =>
      have hi' : i' < rest.length := by simpa using hi
      have hget : (c :: rest).get ⟨i' + 1, hi⟩ = rest.get ⟨i', hi'⟩ := rfl
      rw [hget] at hissue
      obtain ⟨⟨cs', iss'⟩, hout', hmem'⟩ :=
        ih (p + (c.length : Int)) hrest i' hi' issue hissue
      refine ⟨((checkTypo c).corrected_text :: cs',
        (checkTypo c).issues.map
          (fun i => { i with position := i.position + p }) ++ iss'),
        by simp only [processChunks, hc, if_pos, hout'], ?_⟩
      apply List.mem_append_right
      convert hmem' using 2
      simp only [List.take_succ_cons, List.map_cons, List.sum_cons]
      push_cast
      ring

/-- C3: for every chunking and every per-chunk provider outcome in which all
chunks succeed, an issue reported at local position `p` within chunk `i` is
reported by the aggregation loop of `check_text` at global position
`p + Σ (length of original chunks 0..i-1)`. -/
theorem processChunks_positions (checkTypo : List Char → ChunkCheckResult)
    (chunks : List (List Char))
    (hsucc : ∀ c ∈ chunks, (checkTypo c).success = true)
    (i : Nat) (hi : i < chunks.length)
    (issue : Issue) (hissue : issue ∈ (checkTypo (chunks.get ⟨i, hi⟩)).issues) :
    ∃ out, processChunks checkTypo chunks 0 = some out ∧
      { issue with position :=
          issue.position + (((chunks.take i).map List.length).sum : Int) }
        ∈ out.2 := by
  obtain ⟨out, hout, hmem⟩ :=
    processChunks_positions_aux checkTypo chunks 0 hsucc i hi issue hissue
  refine ⟨out, hout, ?_⟩
  convert hmem using 2
  ring

/-- Witness for C3: two chunks of lengths 1 and 2, an echo provider that
reports one issue at local position 0 in each chunk; the issue of chunk 1 is
rebased to global position 0 + 1. -/
theorem processChunks_positions_witness :
    (∀ c ∈ [['a'], ['b', 'c']],
      ((fun c => ChunkCheckResult.mk true c none [Issue.mk c c 0]) c).success
        = true) ∧
    (∃ out,
      processChunks (fun c => ChunkCheckResult.mk true c none [Issue.mk c c 0])
          [['a'], ['b', 'c']] 0 = some out ∧
        { Issue.mk ['b', 'c'] ['b', 'c'] 0 with position :=
            (Issue.mk ['b', 'c'] ['b', 'c'] 0).position +
              ((([['a'], ['b', 'c']].take 1).map List.length).sum : Int) }
          ∈ out.2) :=
  ⟨by decide,
    processChunks_positions
      (fun c => ChunkCheckResult.mk true c none [Issue.mk c c 0])
      [['a'], ['b', 'c']] (by decide) 1 (by decide)
      (Issue.mk ['b', 'c'] ['b', 'c'] 0) (by decide)⟩

/-! ## Job data model (`app/models/extraction_queue.py`, `app/models/typo_check_job.py`) -/

/-- Job status as stored in the `status` column. -/
inductive Status
  | pending
  | processing
  | completed
  | failed
  | cancelled
deriving DecidableEq

/-- A row of the `extraction_queue` table. -/
structure ExtractionQueueItem where
  id : Nat
  document_id : Nat
  priority : Int
  status : Status
  created_at : Nat
  started_at : Option Nat
  completed_at : Option Nat
  error_message : Option String
  retry_count : Nat
deriving DecidableEq

/-- The fields of a `search_documents` row that the extraction pipeline
mutates (`extraction_status`, `page_count`, `extraction_error`,
`metadata_status`). -/
structure SearchDocument where
  id : Nat
  extraction_status : Status
  page_count : Option Nat
  extraction_error : Option String
  metadata_status : String
deriving DecidableEq

/-- A row of the `typo_check_jobs` table.  Note that the model has no
priority column. -/
structure TypoCheckJob where
  id : Nat
  user_id : String
  original_text : List Char
  original_text_hash : String
  provider : String
  status : Status
  progress_current : Nat
  progress_total : Nat
  error_message : Option String
  result_id : Option Nat
  retry_count : Nat
  created_at : Nat
  started_at : Option Nat
  completed_at : Option Nat
deriving DecidableEq

/-! ## Extraction queue operations (`app/services/extraction_service.py`) -/

/-- `ExtractionService.MAX_RETRIES`. -/
def MAX_RETRIES : Nat := 3

/-- The SQL ordering `priority desc, created_at asc` of
`ExtractionService.get_next_pending`, as a total preorder. -/
def extractionOrder (a b : ExtractionQueueItem) : Bool :=
  decide (b.priority < a.priority) ||
    (decide (a.priority = b.priority) && decide (a.created_at ≤ b.created_at))

/-- `ExtractionService.get_next_pending`: the first pending row under
`order_by(priority desc, created_at asc)`. -/
def get_next_pending (queue : List ExtractionQueueItem) :
    Option ExtractionQueueItem :=
  ((queue.filter (fun it => decide (it.status = Status.pending))).mergeSort
    extractionOrder).head?

/-- Row update keyed on the primary key, as done by mutating a fetched ORM
object and committing. -/
def updateItem (queue : List ExtractionQueueItem) (id : Nat)
    (f : ExtractionQueueItem → ExtractionQueueItem) : List ExtractionQueueItem :=
  queue.map (fun it => if it.id = id then f it else it)

/-- Document-row update keyed on the primary key. -/
def updateDoc (docs : List SearchDocument) (id : Nat)
    (f : SearchDocument → SearchDocument) : List SearchDocument :=
  docs.map (fun d => if d.id = id then f d else d)

/-- `queue_item.document`: the document row referenced by the queue item. -/
def findDocument (docs : List SearchDocument) (id : Nat) :
    Option SearchDocument :=
  docs.find? (fun d => decide (d.id = id))

/-- The extraction-side database state. -/
structure ExtractionState where
  queue : List ExtractionQueueItem
  documents : List SearchDocument
deriving DecidableEq

/-- `ExtractionService.process_next`.  The external pdfplumber extraction is
the parameter `extract` (document id to page count, or a raised exception as
`Except.error`); the persisted `SearchPage` rows are outside the model.  The
DOI/CrossRef metadata step, which `process_next` wraps in its own
try/except, is the parameter `fetchMetadata` (document id to resulting
`metadata_status`, or a raised exception, which the except-branch turns into
`metadata_status = "failed"`).  Returns the new state and the
`(success, error_message)` pair returned by the Python function. -/
def process_next (extract : Nat → Except String Nat)
    (fetchMetadata : Nat → Except String String) (now : Nat)
    (s : ExtractionState) : ExtractionState × Bool × Option String :=
  match get_next_pending s.queue with
  | none => (s, true, none)
  | some item =>
    match findDocument s.documents item.document_id with
    | none =>
      let itemF := { item with
        status := Status.failed
        error_message := some "Document not found" }
      ({ s with queue := updateItem s.queue item.id (fun _ => itemF) },
        false, some "Document not found")
    | some doc =>
      let item1 := { item with
        status := Status.processing
        started_at := some now }
      let doc1 := { doc with extraction_status := Status.processing }
      let s1 : ExtractionState := {
        queue := updateItem s.queue item.id (fun _ => item1)
        documents := updateDoc s.documents doc.id (fun _ => doc1) }
      match extract doc.id with
      | Except.ok pageCount =>
        let item2 := { item1 with
          status := Status.completed
          completed_at := some now }
        let doc2 := { doc1 with
          extraction_status := Status.completed
          page_count := some pageCount }
        let doc3 := match fetchMetadata doc.id with
          | Except.ok st => { doc2 with metadata_status := st }
          | Except.error _ => { doc2 with metadata_status := "failed" }
        ({ queue := updateItem s1.queue item.id (fun _ => item2)
           documents := updateDoc s1.documents doc.id (fun _ => doc3) },
          true, none)
      | Except.error e =>
        let item2 := { item1 with
          retry_count := item1.retry_count + 1
          error_message := some e }
        let item3 :=
          if MAX_RETRIES ≤ item2.retry_count then
            { item2 with status := Status.failed, completed_at := some now }
          else
            { item2 with status := Status.pending, started_at := none }
        let docF := { doc1 with
          extraction_status := Status.failed
          extraction_error := some e }
        let docs2 :=
          if MAX_RETRIES ≤ item2.retry_count then
            updateDoc s1.documents doc.id (fun _ => docF)
          else s1.documents
        ({ queue := updateItem s1.queue item.id (fun _ => item3)
           documents := docs2 },
          false, some e)

/-! ## Typo-check queue operations -/

/-- The SQL ordering `created_at asc` used by
`TypoCheckWorkerManager._process_queue` to dequeue. -/
def typoOrder (a b : TypoCheckJob) : Bool :=
  decide (a.created_at ≤ b.created_at)

/-- The dequeue step of `TypoCheckWorkerManager._process_queue`: the first
pending job under `order_by(created_at asc)`. -/
def typo_next_pending (jobs : List TypoCheckJob) : Option TypoCheckJob :=
  ((jobs.filter (fun j => decide (j.status = Status.pending))).mergeSort
    typoOrder).head?

/-- Job-row update keyed on the primary key. -/
def updateJob (jobs : List TypoCheckJob) (id : Nat)
    (f : TypoCheckJob → TypoCheckJob) : List TypoCheckJob :=
  jobs.map (fun j => if j.id = id then f j else j)

/-- `db.session.get(TypoCheckJob, job_id)`. -/
def db_get_job (jobs : List TypoCheckJob) (id : Nat) : Option TypoCheckJob :=
  jobs.find? (fun j => decide (j.id = id))

/-- The stale predicate of `TypoCheckWorkerManager._cleanup_stale_jobs`:
status `processing` and `started_at` strictly before `now - 1 hour`
(a NULL `started_at` never compares true). -/
def isStale (now : Nat) (j : TypoCheckJob) : Bool :=
  decide (j.status = Status.processing) &&
    (match j.started_at with
     | some t => decide (t < now - 3600)
     | none => false)

/-- The per-job action of `_cleanup_stale_jobs`: a stale job is forced to
`failed` with the stale-timeout message and a completion timestamp;
any other job is untouched. -/
def staleSweep (now : Nat) (j : TypoCheckJob) : TypoCheckJob :=
  if isStale now j then
    { j with
      status := Status.failed
      error_message := some "Job timed out (stale processing)"
      completed_at := some now }
  else j

/-- `TypoCheckWorkerManager._cleanup_stale_jobs`. -/
def cleanup_stale_jobs (now : Nat) (jobs : List TypoCheckJob) :
    List TypoCheckJob :=
  jobs.map (staleSweep now)

/-- Modelled from the spec: `mark_failed_or_retry(job, error)` of §4.1, used
by the typo-check job processing step, which is missing from the sources
(see `process_job`).  It increments `retry_count`; at `max_retries` (3) the
job becomes `failed` with `completed_at` set; below it the job reverts to
`pending` with `started_at` cleared.  §7 (Propagation) says every exception
is written onto the job record, so the error message is recorded in both
branches, as the extraction pipeline's code also does. -/
def mark_failed_or_retry (now : Nat) (error : String) (job : TypoCheckJob) :
    TypoCheckJob :=
  let job1 := { job with
    retry_count := job.retry_count + 1
    error_message := some error }
  if MAX_RETRIES ≤ job1.retry_count then
    { job1 with status := Status.failed, completed_at := some now }
  else
    { job1 with status := Status.pending, started_at := none }

/-- Modelled from the spec: `TypoCheckerService.process_job(job_id)` is
invoked by `TypoCheckWorkerManager._process_queue` but its definition is not
among the sources.  Per §4.1, §4.2 and §7 it claims the job
(`mark_processing`: status `processing`, `started_at = now`), invokes the
external correction capability on the job's text (the parameter
`corrector`, returning a result reference or a raised exception), records a
success with `mark_completed` (status `completed`, `completed_at`, result
reference) and catches any exception, recording it with
`mark_failed_or_retry`; no exception escapes. -/
def process_job (corrector : List Char → Except String Nat) (now : Nat)
    (jobs : List TypoCheckJob) (jobId : Nat) : List TypoCheckJob :=
  match db_get_job jobs jobId with
  | none => jobs
  | some job =>
    let job1 := { job with
      status := Status.processing
      started_at := some now }
    match corrector job1.original_text with
    | Except.ok resultId =>
      updateJob jobs jobId (fun _ =>
        { job1 with
          status := Status.completed
          completed_at := some now
          result_id := some resultId })
    | Except.error e =>
      updateJob jobs jobId (fun _ => mark_failed_or_retry now e job1)

/-! ## Worker ticks (`app/worker.py`, `app/typo_worker.py`) -/

/-- The mutable state of `TypoCheckWorkerManager` together with its table. -/
structure TypoWorkerState where
  jobs : List TypoCheckJob
  idle_count : Nat
  is_running : Bool
  max_idle_checks : Nat
deriving DecidableEq

/-- `TypoCheckWorkerManager._process_queue`: first the stale sweep, then
dequeue by `created_at asc`; a found job resets the idle counter and is
processed by `process_job`; an empty queue increments the idle counter and
pauses the worker at the threshold. -/
def typo_tick (corrector : List Char → Except String Nat) (now : Nat)
    (s : TypoWorkerState) : TypoWorkerState :=
  let jobs1 := cleanup_stale_jobs now s.jobs
  match typo_next_pending jobs1 with
  | some job =>
    { s with jobs := process_job corrector now jobs1 job.id, idle_count := 0 }
  | none =>
    let ic := s.idle_count + 1
    if s.max_idle_checks ≤ ic then
      { s with jobs := jobs1, idle_count := ic, is_running := false }
    else
      { s with jobs := jobs1, idle_count := ic }

/-- The mutable state of `ExtractionWorkerManager` together with its tables. -/
structure ExtractionWorkerState where
  db : ExtractionState
  idle_count : Nat
  is_running : Bool
  max_idle_checks : Nat
deriving DecidableEq

/-- `ExtractionWorkerManager._process_queue`: counts pending items; if any,
resets the idle counter and processes one via `process_next`; otherwise
increments the idle counter and pauses the worker at the threshold.  It
performs no stale-job sweep. -/
def extraction_tick (extract : Nat → Except String Nat)
    (fetchMetadata : Nat → Except String String) (now : Nat)
    (w : ExtractionWorkerState) : ExtractionWorkerState :=
  let pendingCount :=
    (w.db.queue.filter (fun it => decide (it.status = Status.pending))).length
  if 0 < pendingCount then
    { w with
      db := (process_next extract fetchMetadata now w.db).1
      idle_count := 0 }
  else
    let ic := w.idle_count + 1
    if w.max_idle_checks ≤ ic then
      { w with idle_count := ic, is_running := false }
    else
      { w with idle_count := ic }

/-! ## Typo-checker routes (`app/routes/typo_checker.py`) -/

/-- `TypoCheckerService.MAX_TEXT_LENGTH`. -/
def MAX_TEXT_LENGTH : Nat := 100000

/-- A row of the `typo_check_results` table (the fields the routes read). -/
structure TypoCheckResultRow where
  id : Nat
  user_id : String
  original_text_hash : String
  corrected_text : List Char
  provider_used : String
deriving DecidableEq

/-- The database state seen by the typo-checker routes. -/
structure TypoAppState where
  results : List TypoCheckResultRow
  jobs : List TypoCheckJob
  nextJobId : Nat
deriving DecidableEq

/-- The JSON body of a `POST` typo-check request
(`data.get("text")`, `data.get("provider", "gemini")`). -/
structure CheckTypoRequest where
  text : Option (List Char)
  provider : Option String
deriving DecidableEq

/-- The response of the `check_typo` route, by HTTP status. -/
inductive CheckTypoResponse
  | badRequest (error : String)
  | cachedOk (corrected : List Char)
  | tooManyPending
  | accepted (jobId : Nat)
deriving DecidableEq

/-- The cache fast path of `check_typo`: first `TypoCheckResult` row matching
the user, text hash and provider. -/
def cacheLookup (results : List TypoCheckResultRow) (userId textHash provider : String) :
    Option TypoCheckResultRow :=
  results.find? (fun r =>
    decide (r.user_id = userId) &&
    decide (r.original_text_hash = textHash) &&
    decide (r.provider_used = provider))

/-- The per-owner concurrent-job count of `check_typo`: the user's jobs with
status `pending` or `processing`. -/
def activeJobCount (jobs : List TypoCheckJob) (userId : String) : Nat :=
  (jobs.filter (fun j =>
    decide (j.user_id = userId) &&
    (decide (j.status = Status.pending) ||
      decide (j.status = Status.processing)))).length

/-- The job row inserted by `check_typo` (model defaults of
`TypoCheckJob`: status `pending`, zero progress, zero retries). -/
def newTypoJob (id : Nat) (userId : String) (text : List Char)
    (textHash provider : String) (now : Nat) : TypoCheckJob := {
  id := id
  user_id := userId
  original_text := text
  original_text_hash := textHash
  provider := provider
  status := Status.pending
  progress_current := 0
  progress_total := 0
  error_message := none
  result_id := none
  retry_count := 0
  created_at := now
  started_at := none
  completed_at := none }

/-- The `check_typo` route (`POST`): validation, cache fast path, per-owner
cap check (at most 3 jobs in `pending`/`processing`), then insertion of a
pending job whose id is returned with a 202.  The SHA-256 text hash is the
parameter `hashFn`. -/
def check_typo (hashFn : List Char → String) (now : Nat) (userId : String)
    (body : Option CheckTypoRequest) (st : TypoAppState) :
    CheckTypoResponse × TypoAppState :=
  match body with
  | none => (CheckTypoResponse.badRequest "Request body is required", st)
  | some data =>
    match data.text with
    | none => (CheckTypoResponse.badRequest "Text is required", st)
    | some text =>
      if text = [] then
        (CheckTypoResponse.badRequest "Text is required", st)
      else if text.all (fun c => c.isWhitespace) then
        (CheckTypoResponse.badRequest "Text cannot be empty", st)
      else if MAX_TEXT_LENGTH < text.length then
        (CheckTypoResponse.badRequest "Text exceeds maximum limit", st)
      else
        let provider := data.provider.getD "gemini"
        let textHash := hashFn text
        match cacheLookup st.results userId textHash provider with
        | some r => (CheckTypoResponse.cachedOk r.corrected_text, st)
        | none =>
          if 3 ≤ activeJobCount st.jobs userId then
            (CheckTypoResponse.tooManyPending, st)
          else
            let job := newTypoJob st.nextJobId userId text textHash provider now
            (CheckTypoResponse.accepted job.id,
              { st with
                jobs := st.jobs ++ [job]
                nextJobId := st.nextJobId + 1 })

/-- The response of the `cancel_job` route, by HTTP status. -/
inductive CancelResponse
  | notFound
  | accessDenied
  | badStatus
  | cancelled
deriving DecidableEq

/-- The `cancel_job` route (`POST /jobs/(id)/cancel`): a missing job is 404,
a foreign job is 403, a terminal job (completed/failed/cancelled) is 400 and
untouched; otherwise the job becomes `cancelled` with `completed_at` set. -/
def cancel_job (now : Nat) (userId : String) (jobId : Nat)
    (jobs : List TypoCheckJob) : CancelResponse × List TypoCheckJob :=
  match db_get_job jobs jobId with
  | none => (CancelResponse.notFound, jobs)
  | some job =>
    if job.user_id ≠ userId then (CancelResponse.accessDenied, jobs)
    else if job.status = Status.completed ∨ job.status = Status.failed ∨
        job.status = Status.cancelled then
      (CancelResponse.badStatus, jobs)
    else
      (CancelResponse.cancelled,
        updateJob jobs jobId (fun _ =>
          { job with
            status := Status.cancelled
            completed_at := some now }))

/-! ## Rate limiter (`app/utils/rate_limiter.py`) -/

/-- `RateLimiter` state: capacity `rate` tokens per `per_seconds`; the float
token count and the monotonic clock are modelled over `ℚ`. -/
structure RateLimiter where
  rate : Nat
  per_seconds : ℚ
  tokens : ℚ
  last_update : ℚ
deriving DecidableEq

/-- `RateLimiter.__init__(rate, per_seconds)` at monotonic time `t0`:
a full bucket. -/
def RateLimiter.init (rate : Nat) (perSeconds : ℚ) (t0 : ℚ) : RateLimiter := {
  rate := rate
  per_seconds := perSeconds
  tokens := (rate : ℚ)
  last_update := t0 }

/-- `RateLimiter._refill` at monotonic time `now`:
`tokens = min(rate, tokens + elapsed * rate / per_seconds)`. -/
def RateLimiter.refill (now : ℚ) (rl : RateLimiter) : RateLimiter :=
  let elapsed := now - rl.last_update
  let tokensToAdd := elapsed * ((rl.rate : ℚ) / rl.per_seconds)
  { rl with
    tokens := min (rl.rate : ℚ) (rl.tokens + tokensToAdd)
    last_update := now }

/-- `RateLimiter._try_acquire` (the non-blocking path of `acquire`): refill,
then take one token if at least one is available. -/
def RateLimiter.try_acquire (now : ℚ) (rl : RateLimiter) : Bool × RateLimiter :=
  let rl1 := RateLimiter.refill now rl
  if 1 ≤ rl1.tokens then (true, { rl1 with tokens := rl1.tokens - 1 })
  else (false, rl1)

/-- A run of consecutive non-blocking `acquire()` calls at one instant. -/
def acquireRun : Nat → ℚ → RateLimiter → List Bool × RateLimiter
  | 0, _, rl => ([], rl)
  | n + 1, now, rl =>
    let p1 := RateLimiter.try_acquire now rl
    let p2 := acquireRun n now p1.2
    (p1.1 :: p2.1, p2.2)

/-! ## Queue-ordering lemmas -/

theorem mem_of_head?_eq_some {α : Type} {l : List α} {a : α}
    (h : l.head? = some a) : a ∈ l := by
  cases l with
  | nil => simp at h
  | cons x t =>
    simp only [List.head?_cons, Option.some.injEq] at h
    subst h
    exact List.mem_cons_self x t

theorem head_mergeSort_min {α : Type} (le : α → α → Bool)
    (htrans : ∀ (a b c : α), le a b = true → le b c = true → le a c = true)
    (htotal : ∀ (a b : α), (le a b || le b a) = true)
    (l : List α) (r : α) (h : (l.mergeSort le).head? = some r) :
    r ∈ l ∧ ∀ j ∈ l, le r j = true := by
  have hperm := List.mergeSort_perm l le
  have hsorted := List.sorted_mergeSort htrans htotal l
  cases hms : l.mergeSort le with
  | nil => rw [hms] at h; simp at h
  | cons a t =>
    rw [hms] at h
    simp only [List.head?_cons, Option.some.injEq] at h
    subst h
    rw [hms] at hperm hsorted
    refine ⟨hperm.mem_iff.mp (List.mem_cons_self a t), ?_⟩
    intro j hj
    rcases List.mem_cons.mp (hperm.mem_iff.mpr hj) with hrj | hjt
    · subst hrj
      have := htotal j j
      simpa using this
    · exact (List.pairwise_cons.mp hsorted).1 j hjt

theorem head?_mergeSort_none {α : Type} (le : α → α → Bool) (l : List α)
    (h : (l.mergeSort le).head? = none) : l = [] := by
  have hperm := List.mergeSort_perm l le
  cases hms : l.mergeSort le with
  | nil =>
    rw [hms] at hperm
    exact (List.perm_nil.mp hperm.symm).symm ▸ rfl
  | cons a t => rw [hms] at h; simp at h

theorem extractionOrder_trans (a b c : ExtractionQueueItem)
    (h1 : extractionOrder a b = true) (h2 : extractionOrder b c = true) :
    extractionOrder a c = true := by
  simp only [extractionOrder, Bool.or_eq_true, Bool.and_eq_true,
    decide_eq_true_eq] at h1 h2 ⊢
  omega

theorem extractionOrder_total (a b : ExtractionQueueItem) :
    (extractionOrder a b || extractionOrder b a) = true := by
  simp only [extractionOrder, Bool.or_eq_true, Bool.and_eq_true,
    decide_eq_true_eq]
  omega

theorem typoOrder_trans (a b c : TypoCheckJob)
    (h1 : typoOrder a b = true) (h2 : typoOrder b c = true) :
    typoOrder a c = true := by
  simp only [typoOrder, decide_eq_true_eq] at h1 h2 ⊢
  omega

theorem typoOrder_total (a b : TypoCheckJob) :
    (typoOrder a b || typoOrder b a) = true := by
  simp only [typoOrder, Bool.or_eq_true, decide_eq_true_eq]
  omega

theorem get_next_pending_sound (q : List ExtractionQueueItem)
    (r : ExtractionQueueItem) (h : get_next_pending q = some r) :
    r ∈ q ∧ r.status = Status.pending ∧
      ∀ j ∈ q, j.status = Status.pending → extractionOrder r j = true := by
  unfold get_next_pending at h
  obtain ⟨hmem, hmin⟩ :=
    head_mergeSort_min extractionOrder extractionOrder_trans
      extractionOrder_total _ r h
  rw [List.mem_filter] at hmem
  refine ⟨hmem.1, by simpa using hmem.2, ?_⟩
  intro j hj hstat
  exact hmin j (List.mem_filter.mpr ⟨hj, by simp [hstat]⟩)

theorem typo_next_pending_sound (q : List TypoCheckJob)
    (r : TypoCheckJob) (h : typo_next_pending q = some r) :
    r ∈ q ∧ r.status = Status.pending ∧
      ∀ j ∈ q, j.status = Status.pending → r.created_at ≤ j.created_at := by
  unfold typo_next_pending at h
  obtain ⟨hmem, hmin⟩ :=
    head_mergeSort_min typoOrder typoOrder_trans typoOrder_total _ r h
  rw [List.mem_filter] at hmem
  refine ⟨hmem.1, by simpa using hmem.2, ?_⟩
  intro j hj hstat
  have := hmin j (List.mem_filter.mpr ⟨hj, by simp [hstat]⟩)
  simpa [typoOrder] using this

/-- C5: for both pipelines' dequeue steps.  The extraction queue returns a
pending item maximal for `priority desc, created_at asc`; the typo-check
queue (whose rows carry no priority column, so all priorities are equal)
returns a pending job of earliest `created_at`; each returns none exactly
when no pending row exists. -/
theorem next_pending_spec (q : List ExtractionQueueItem)
    (tq : List TypoCheckJob) :
    (∀ r, get_next_pending q = some r →
      r ∈ q ∧ r.status = Status.pending ∧
        ∀ j ∈ q, j.status = Status.pending →
          j.priority < r.priority ∨
            (r.priority = j.priority ∧ r.created_at ≤ j.created_at)) ∧
    (get_next_pending q = none ↔ ∀ j ∈ q, j.status ≠ Status.pending) ∧
    (∀ r, typo_next_pending tq = some r →
      r ∈ tq ∧ r.status = Status.pending ∧
        ∀ j ∈ tq, j.status = Status.pending → r.created_at ≤ j.created_at) ∧
    (typo_next_pending tq = none ↔ ∀ j ∈ tq, j.status ≠ Status.pending) := by
  refine ⟨?_, ?_, ?_, ?_⟩
  · intro r h
    obtain ⟨hmem, hstat, hmin⟩ := get_next_pending_sound q r h
    refine ⟨hmem, hstat, ?_⟩
    intro j hj hjstat
    have := hmin j hj hjstat
    simpa [extractionOrder, Bool.or_eq_true, Bool.and_eq_true,
      decide_eq_true_eq] using this
  · constructor
    · intro h j hj hstat
      have hnil : q.filter (fun it => decide (it.status = Status.pending)) = [] :=
        head?_mergeSort_none extractionOrder _ h
      have : j ∈ q.filter (fun it => decide (it.status = Status.pending)) :=
        List.mem_filter.mpr ⟨hj, by simp [hstat]⟩
      rw [hnil] at this
      simp at this
    · intro h
      unfold get_next_pending
      have hnil : q.filter (fun it => decide (it.status = Status.pending)) = [] := by
        rw [List.filter_eq_nil_iff]
        intro a ha
        simpa using h a ha
      rw [hnil]
      simp
  · exact fun r h => typo_next_pending_sound tq r h
  · constructor
    · intro h j hj hstat
      have hnil : tq.filter (fun j => decide (j.status = Status.pending)) = [] :=
        head?_mergeSort_none typoOrder _ h
      have : j ∈ tq.filter (fun j => decide (j.status = Status.pending)) :=
        List.mem_filter.mpr ⟨hj, by simp [hstat]⟩
      rw [hnil] at this
      simp at this
    · intro h
      unfold typo_next_pending
      have hnil : tq.filter (fun j => decide (j.status = Status.pending)) = [] := by
        rw [List.filter_eq_nil_iff]
        intro a ha
        simpa using h a ha
      rw [hnil]
      simp

/-! ## Row-update lemmas -/

theorem mem_updateItem {q : List ExtractionQueueItem} {id : Nat}
    {f : ExtractionQueueItem → ExtractionQueueItem} {x : ExtractionQueueItem}
    (hx : x ∈ q) (hid : x.id = id) : f x ∈ updateItem q id f := by
  unfold updateItem
  refine List.mem_map.mpr ⟨x, hx, ?_⟩
  simp [hid]

theorem mem_updateJob {jobs : List TypoCheckJob} {id : Nat}
    {f : TypoCheckJob → TypoCheckJob} {x : TypoCheckJob}
    (hx : x ∈ jobs) (hid : x.id = id) : f x ∈ updateJob jobs id f := by
  unfold updateJob
  refine List.mem_map.mpr ⟨x, hx, ?_⟩
  simp [hid]

theorem mem_updateJob_cases {jobs : List TypoCheckJob} {id : Nat}
    {f : TypoCheckJob → TypoCheckJob} {y : TypoCheckJob}
    (hy : y ∈ updateJob jobs id f) :
    (∃ x, x ∈ jobs ∧ y = f x) ∨ y ∈ jobs := by
  unfold updateJob at hy
  obtain ⟨x, hx, hxy⟩ := List.mem_map.mp hy
  by_cases hc : x.id = id
  · rw [if_pos hc] at hxy
    exact Or.inl ⟨x, hx, hxy.symm⟩
  · rw [if_neg hc] at hxy
    exact Or.inr (hxy ▸ hx)

theorem staleSweep_id (now : Nat) (j : TypoCheckJob) :
    (staleSweep now j).id = j.id := by
  unfold staleSweep
  split <;> rfl

theorem cleanup_ids (now : Nat) (jobs : List TypoCheckJob) :
    (cleanup_stale_jobs now jobs).map TypoCheckJob.id
      = jobs.map TypoCheckJob.id := by
  unfold cleanup_stale_jobs
  rw [List.map_map]
  exact List.map_congr_left (fun j _ => staleSweep_id now j)

theorem db_get_job_of_nodup (jobs : List TypoCheckJob) (j : TypoCheckJob)
    (hmem : j ∈ jobs) (hnodup : (jobs.map TypoCheckJob.id).Nodup) :
    db_get_job jobs j.id = some j := by
  induction jobs with
  | nil => simp at hmem
  | cons a t ih =>
    simp only [List.map_cons, List.nodup_cons] at hnodup
    rcases List.mem_cons.mp hmem with rfl | hmt
    · unfold db_get_job
      simp
    · have hne : a.id ≠ j.id := by
        intro he
        exact hnodup.1 (he ▸ List.mem_map_of_mem TypoCheckJob.id hmt)
      unfold db_get_job at ih ⊢
      rw [List.find?_cons_of_neg _ (by simpa using hne)]
      exact ih hmt hnodup.2

/-- All fields of the (spec-modelled) retry transition at once: the retry
counter increments by exactly one, the error is recorded, failure occurs
exactly at `max_retries`, and below it the job reverts to pending with
`started_at` cleared. -/
theorem mark_failed_or_retry_fields (now : Nat) (e : String) (j : TypoCheckJob) :
    (mark_failed_or_retry now e j).id = j.id ∧
    (mark_failed_or_retry now e j).error_message = some e ∧
    (mark_failed_or_retry now e j).retry_count = j.retry_count + 1 ∧
    ((mark_failed_or_retry now e j).status = Status.failed ↔
      MAX_RETRIES ≤ j.retry_count + 1) ∧
    (j.retry_count + 1 < MAX_RETRIES →
      (mark_failed_or_retry now e j).status = Status.pending ∧
      (mark_failed_or_retry now e j).started_at = none) := by
  simp only [mark_failed_or_retry]
  by_cases h : MAX_RETRIES ≤ j.retry_count + 1
  · rw [if_pos h]
    exact ⟨rfl, rfl, rfl, by simp [h], fun hlt => absurd h (by omega)⟩
  · rw [if_neg h]
    exact ⟨rfl, rfl, rfl, by simp [h], fun _ => ⟨rfl, rfl⟩⟩

/-- The error branch of `ExtractionService.process_next`: when the dequeued
item's extraction raises, the function returns `(false, error)` normally and
the item's record carries the error message and the retry/fail transition. -/
theorem process_next_error_branch
    (extract : Nat → Except String Nat)
    (fetchMetadata : Nat → Except String String) (now : Nat)
    (s : ExtractionState) (item : ExtractionQueueItem) (doc : SearchDocument)
    (e : String) (hnext : get_next_pending s.queue = some item)
    (hdoc : findDocument s.documents item.document_id = some doc)
    (herr : extract doc.id = Except.error e) :
    (process_next extract fetchMetadata now s).2 = (false, some e) ∧
    ∃ it', it' ∈ (process_next extract fetchMetadata now s).1.queue ∧
      it'.id = item.id ∧ it'.error_message = some e ∧
      it'.retry_count = item.retry_count + 1 ∧
      (it'.status = Status.failed ↔ MAX_RETRIES ≤ item.retry_count + 1) ∧
      (item.retry_count + 1 < MAX_RETRIES →
        it'.status = Status.pending ∧ it'.started_at = none) ∧
      (MAX_RETRIES ≤ item.retry_count + 1 → it'.completed_at = some now) := by
  have hmem := (get_next_pending_sound s.queue item hnext).1
  simp only [process_next, hnext, hdoc, herr]
  by_cases hc : MAX_RETRIES ≤ item.retry_count + 1
  · rw [if_pos hc]
    refine ⟨by trivial, ?_⟩
    refine ⟨_, mem_updateItem (mem_updateItem hmem rfl) rfl, rfl, rfl, rfl,
      by simp [hc], fun hlt => absurd hc (by omega), fun _ => rfl⟩
  · rw [if_neg hc]
    refine ⟨by trivial, ?_⟩
    refine ⟨_, mem_updateItem (mem_updateItem hmem rfl) rfl, rfl, rfl, rfl,
      by simp [hc], fun _ => ⟨rfl, rfl⟩, fun habs => absurd habs hc⟩

/-- C1: an exception raised by the per-job processing step never escapes a
tick.  The extraction side is `process_next`, which catches the extraction
error, records it on the dequeued item, and returns `(success := false,
error)` normally; the typo side is the spec-modelled `process_job` invoked
by `typo_tick`, which catches the corrector error and records it on the job
via `mark_failed_or_retry`.  Both are total functions, so the tick returns
normally and the polling loop proceeds at the next interval. -/
theorem tick_catches_exceptions
    (extract : Nat → Except String Nat)
    (fetchMetadata : Nat → Except String String) (now : Nat)
    (s : ExtractionState) (item : ExtractionQueueItem) (doc : SearchDocument)
    (e : String) (hnext : get_next_pending s.queue = some item)
    (hdoc : findDocument s.documents item.document_id = some doc)
    (herr : extract doc.id = Except.error e)
    (corrector : List Char → Except String Nat) (tnow : Nat)
    (ts : TypoWorkerState) (job : TypoCheckJob) (e2 : String)
    (hnodup : (ts.jobs.map TypoCheckJob.id).Nodup)
    (hjob : typo_next_pending (cleanup_stale_jobs tnow ts.jobs) = some job)
    (hcorr : corrector job.original_text = Except.error e2) :
    ((process_next extract fetchMetadata now s).2.1 = false ∧
      ∃ it', it' ∈ (process_next extract fetchMetadata now s).1.queue ∧
        it'.id = item.id ∧ it'.error_message = some e) ∧
    (∃ j', j' ∈ (typo_tick corrector tnow ts).jobs ∧
      j'.id = job.id ∧ j'.error_message = some e2) := by
  obtain ⟨hpair, it', hit', hid, hmsg, _⟩ :=
    process_next_error_branch extract fetchMetadata now s item doc e
      hnext hdoc herr
  constructor
  · refine ⟨?_, it', hit', hid, hmsg⟩
    rw [hpair]
  · have hnodup1 : ((cleanup_stale_jobs tnow ts.jobs).map TypoCheckJob.id).Nodup := by
      rw [cleanup_ids]
      exact hnodup
    have hjmem :=
      (typo_next_pending_sound (cleanup_stale_jobs tnow ts.jobs) job hjob).1
    have hfind : db_get_job (cleanup_stale_jobs tnow ts.jobs) job.id = some job :=
      db_get_job_of_nodup _ job hjmem hnodup1
    simp only [typo_tick, hjob, process_job, hfind, hcorr]
    obtain ⟨hid2, hmsg2, _⟩ :=
      mark_failed_or_retry_fields tnow e2
        { job with status := Status.processing, started_at := some tnow }
    exact ⟨_, mem_updateJob hjmem rfl, hid2, hmsg2⟩

/-- C4: a processing attempt failing with a retryable error increments
`retry_count` by exactly 1, the job becomes `failed` exactly when the new
`retry_count` reaches `max_retries` (3) and never below it, and below the
limit the job reverts to `pending` with `started_at` cleared — for the
extraction pipeline's `process_next` and for the typo pipeline's
(spec-modelled) `mark_failed_or_retry`. -/
theorem retry_count_semantics
    (extract : Nat → Except String Nat)
    (fetchMetadata : Nat → Except String String) (now : Nat)
    (s : ExtractionState) (item : ExtractionQueueItem) (doc : SearchDocument)
    (e : String) (hnext : get_next_pending s.queue = some item)
    (hdoc : findDocument s.documents item.document_id = some doc)
    (herr : extract doc.id = Except.error e) :
    (∃ it', it' ∈ (process_next extract fetchMetadata now s).1.queue ∧
      it'.id = item.id ∧
      it'.retry_count = item.retry_count + 1 ∧
      (it'.status = Status.failed ↔ MAX_RETRIES ≤ item.retry_count + 1) ∧
      (item.retry_count + 1 < MAX_RETRIES →
        it'.status = Status.pending ∧ it'.started_at = none)) ∧
    (∀ (tnow : Nat) (err : String) (j : TypoCheckJob),
      (mark_failed_or_retry tnow err j).retry_count = j.retry_count + 1 ∧
      ((mark_failed_or_retry tnow err j).status = Status.failed ↔
        MAX_RETRIES ≤ j.retry_count + 1) ∧
      (j.retry_count + 1 < MAX_RETRIES →
        (mark_failed_or_retry tnow err j).status = Status.pending ∧
        (mark_failed_or_retry tnow err j).started_at = none)) := by
  obtain ⟨_, it', hit', hid, _, hretry, hiff, hrevert, _⟩ :=
    process_next_error_branch extract fetchMetadata now s item doc e
      hnext hdoc herr
  refine ⟨⟨it', hit', hid, hretry, hiff, hrevert⟩, ?_⟩
  intro tnow err j
  obtain ⟨_, _, hr, hf, hp⟩ := mark_failed_or_retry_fields tnow err j
  exact ⟨hr, hf, hp⟩

/-! ## Concrete fixtures for witnesses -/

/-- A concrete pending extraction-queue row. -/
def witItem : ExtractionQueueItem := {
  id := 1
  document_id := 10
  priority := 0
  status := Status.pending
  created_at := 0
  started_at := none
  completed_at := none
  error_message := none
  retry_count := 0 }

/-- A concrete document row referenced by `witItem`. -/
def witDoc : SearchDocument := {
  id := 10
  extraction_status := Status.pending
  page_count := none
  extraction_error := none
  metadata_status := "pending" }

/-- A concrete extraction database state. -/
def witState : ExtractionState := { queue := [witItem], documents := [witDoc] }

/-- A concrete pending typo-check job. -/
def witJob : TypoCheckJob := {
  id := 1
  user_id := "u"
  original_text := ['x']
  original_text_hash := "h"
  provider := "gemini"
  status := Status.pending
  progress_current := 0
  progress_total := 0
  error_message := none
  result_id := none
  retry_count := 0
  created_at := 0
  started_at := none
  completed_at := none }

/-- A concrete typo-worker state holding `witJob`. -/
def witTypoState : TypoWorkerState :=
  { jobs := [witJob], idle_count := 0, is_running := true, max_idle_checks := 10 }

theorem witState_next : get_next_pending witState.queue = some witItem := by
  have hf : witState.queue.filter (fun it => decide (it.status = Status.pending))
      = [witItem] := rfl
  unfold get_next_pending
  rw [hf]
  simp [List.mergeSort]

theorem witState_doc : findDocument witState.documents witItem.document_id
    = some witDoc := rfl

theorem witTypo_next :
    typo_next_pending (cleanup_stale_jobs 0 witTypoState.jobs) = some witJob := by
  have hf : (cleanup_stale_jobs 0 witTypoState.jobs).filter
      (fun j => decide (j.status = Status.pending)) = [witJob] := rfl
  unfold typo_next_pending
  rw [hf]
  simp [List.mergeSort]

/-- Witness for C1 at a concrete one-job state per pipeline, with external
calls that always raise. -/
theorem tick_catches_exceptions_witness :
    get_next_pending witState.queue = some witItem ∧
    findDocument witState.documents witItem.document_id = some witDoc ∧
    (fun _ => (Except.error "boom" : Except String Nat)) witDoc.id
      = Except.error "boom" ∧
    (witTypoState.jobs.map TypoCheckJob.id).Nodup ∧
    typo_next_pending (cleanup_stale_jobs 0 witTypoState.jobs) = some witJob ∧
    (fun _ => (Except.error "bad" : Except String Nat)) witJob.original_text
      = Except.error "bad" ∧
    (((process_next (fun _ => Except.error "boom")
          (fun _ => Except.ok "completed") 5 witState).2.1 = false ∧
        ∃ it', it' ∈ (process_next (fun _ => Except.error "boom")
            (fun _ => Except.ok "completed") 5 witState).1.queue ∧
          it'.id = witItem.id ∧ it'.error_message = some "boom") ∧
      (∃ j', j' ∈ (typo_tick (fun _ => Except.error "bad") 0 witTypoState).jobs ∧
        j'.id = witJob.id ∧ j'.error_message = some "bad")) :=
  ⟨witState_next, witState_doc, rfl, by decide, witTypo_next, rfl,
    tick_catches_exceptions (fun _ => Except.error "boom")
      (fun _ => Except.ok "completed") 5 witState witItem witDoc "boom"
      witState_next witState_doc rfl (fun _ => Except.error "bad") 0
      witTypoState witJob "bad" (by decide) witTypo_next rfl⟩

/-- Witness for C4 at the same concrete extraction state. -/
theorem retry_count_semantics_witness :
    get_next_pending witState.queue = some witItem ∧
    findDocument witState.documents witItem.document_id = some witDoc ∧
    (fun _ => (Except.error "boom" : Except String Nat)) witDoc.id
      = Except.error "boom" ∧
    ((∃ it', it' ∈ (process_next (fun _ => Except.error "boom")
          (fun _ => Except.ok "completed") 5 witState).1.queue ∧
        it'.id = witItem.id ∧
        it'.retry_count = witItem.retry_count + 1 ∧
        (it'.status = Status.failed ↔ MAX_RETRIES ≤ witItem.retry_count + 1) ∧
        (witItem.retry_count + 1 < MAX_RETRIES →
          it'.status = Status.pending ∧ it'.started_at = none)) ∧
      (∀ (tnow : Nat) (err : String) (j : TypoCheckJob),
        (mark_failed_or_retry tnow err j).retry_count = j.retry_count + 1 ∧
        ((mark_failed_or_retry tnow err j).status = Status.failed ↔
          MAX_RETRIES ≤ j.retry_count + 1) ∧
        (j.retry_count + 1 < MAX_RETRIES →
          (mark_failed_or_retry tnow err j).status = Status.pending ∧
          (mark_failed_or_retry tnow err j).started_at = none))) :=
  ⟨witState_next, witState_doc, rfl,
    retry_count_semantics (fun _ => Except.error "boom")
      (fun _ => Except.ok "completed") 5 witState witItem witDoc "boom"
      witState_next witState_doc rfl⟩

/-- Concrete rows for the C5 witness: item A (priority 5, created first)
and item B (priority 1, created later). -/
def c5itemA : ExtractionQueueItem := { witItem with id := 1, priority := 5 }

/-- The lower-priority, later row for the C5 witness. -/
def c5itemB : ExtractionQueueItem :=
  { witItem with id := 2, document_id := 11, priority := 1, created_at := 1 }

theorem c5_typonext : typo_next_pending [witJob] = some witJob := by
  have hf : List.filter (fun j => decide (j.status = Status.pending)) [witJob]
      = [witJob] := rfl
  unfold typo_next_pending
  rw [hf]
  simp [List.mergeSort]

theorem c5_next : get_next_pending [c5itemB, c5itemA] = some c5itemA := by
  have hf : List.filter (fun it => decide (it.status = Status.pending))
      [c5itemB, c5itemA] = [c5itemB, c5itemA] := rfl
  unfold get_next_pending
  rw [hf]
  rw [List.mergeSort]
  simp [extractionOrder, c5itemA, c5itemB, witItem, List.mergeSort]

/-- Witness for C5: the dequeue picks the priority-5 item over the earlier
filed priority-1 item, and the typo dequeue picks the only pending job. -/
theorem next_pending_spec_witness :
    get_next_pending [c5itemB, c5itemA] = some c5itemA ∧
    typo_next_pending [witJob] = some witJob ∧
    (c5itemA ∈ [c5itemB, c5itemA] ∧ c5itemA.status = Status.pending ∧
      ∀ j ∈ [c5itemB, c5itemA], j.status = Status.pending →
        j.priority < c5itemA.priority ∨
          (c5itemA.priority = j.priority ∧ c5itemA.created_at ≤ j.created_at)) ∧
    (witJob ∈ [witJob] ∧ witJob.status = Status.pending ∧
      ∀ j ∈ [witJob], j.status = Status.pending →
        witJob.created_at ≤ j.created_at) :=
  ⟨c5_next, c5_typonext,
    (next_pending_spec [c5itemB, c5itemA] [witJob]).1 c5itemA c5_next,
    (next_pending_spec [c5itemB, c5itemA] [witJob]).2.2.1 witJob c5_typonext⟩

/-! ## Stale-job sweep (C6) -/

theorem staleSweep_not_stale (now : Nat) (j : TypoCheckJob) :
    (staleSweep now j).status = Status.processing →
    ∀ t, (staleSweep now j).started_at = some t → ¬ t < now - 3600 := by
  unfold staleSweep
  by_cases h : isStale now j
  · rw [if_pos h]
    intro hs
    simp at hs
  · rw [if_neg h]
    intro hs t ht hlt
    apply h
    unfold isStale
    rw [hs, ht]
    simp [hlt]

theorem cleanup_no_stale (now : Nat) (jobs : List TypoCheckJob) :
    ∀ j ∈ cleanup_stale_jobs now jobs, j.status = Status.processing →
      ∀ t, j.started_at = some t → ¬ t < now - 3600 := by
  intro j hj
  obtain ⟨x, _, rfl⟩ := List.mem_map.mp hj
  exact staleSweep_not_stale now x

theorem mark_failed_or_retry_not_processing (now : Nat) (e : String)
    (j : TypoCheckJob) :
    (mark_failed_or_retry now e j).status ≠ Status.processing := by
  unfold mark_failed_or_retry
  by_cases h : MAX_RETRIES ≤ j.retry_count + 1
  · rw [if_pos h]
    simp
  · rw [if_neg h]
    simp

theorem process_job_no_stale (corrector : List Char → Except String Nat)
    (now : Nat) (jobs : List TypoCheckJob) (jobId : Nat)
    (hjobs : ∀ j ∈ jobs, j.status = Status.processing →
      ∀ t, j.started_at = some t → ¬ t < now - 3600) :
    ∀ j ∈ process_job corrector now jobs jobId,
      j.status = Status.processing →
      ∀ t, j.started_at = some t → ¬ t < now - 3600 := by
  intro j hj
  unfold process_job at hj
  cases hfind : db_get_job jobs jobId with
  | none =>
    rw [hfind] at hj
    exact hjobs j hj
  | some job =>
    rw [hfind] at hj
    dsimp only at hj
    cases hcorr : corrector job.original_text with
    | ok resultId =>
      rw [hcorr] at hj
      rcases mem_updateJob_cases hj with ⟨x, _, rfl⟩ | hmem
      · intro hs
        simp at hs
      · exact hjobs j hmem
    | error e =>
      rw [hcorr] at hj
      rcases mem_updateJob_cases hj with ⟨x, _, rfl⟩ | hmem
      · intro hs
        exact absurd hs (mark_failed_or_retry_not_processing now e _)
      · exact hjobs j hmem

/-- C6 (amended): only the typo-check pipeline's tick performs the stale
sweep (the extraction tick has none — see the counterexample).  Before the
typo tick dequeues, every job in `processing` whose `started_at` is over one
hour old is forced to `failed` with the stale-timeout message and a
completion timestamp, regardless of its retry budget; and after a typo tick
no job remains in `processing` with `started_at` older than one hour. -/
theorem typo_tick_stale_sweep (corrector : List Char → Except String Nat)
    (now : Nat) (s : TypoWorkerState) :
    (∀ j ∈ s.jobs, j.status = Status.processing →
      ∀ t, j.started_at = some t → t < now - 3600 →
        staleSweep now j ∈ cleanup_stale_jobs now s.jobs ∧
        (staleSweep now j).status = Status.failed ∧
        (staleSweep now j).error_message
          = some "Job timed out (stale processing)" ∧
        (staleSweep now j).completed_at = some now ∧
        (staleSweep now j).retry_count = j.retry_count) ∧
    (∀ j ∈ (typo_tick corrector now s).jobs, j.status = Status.processing →
      ∀ t, j.started_at = some t → ¬ t < now - 3600) := by
  constructor
  · intro j hj hs t ht hlt
    have hstale : isStale now j = true := by
      unfold isStale
      rw [hs, ht]
      simp [hlt]
    have hsw : staleSweep now j
        = { j with
            status := Status.failed
            error_message := some "Job timed out (stale processing)"
            completed_at := some now } := by
      unfold staleSweep
      rw [if_pos hstale]
    refine ⟨List.mem_map_of_mem (staleSweep now) hj, ?_, ?_, ?_, ?_⟩ <;>
      rw [hsw]
  · intro j hj
    simp only [typo_tick] at hj
    cases hnp : typo_next_pending (cleanup_stale_jobs now s.jobs) with
    | none =>
      simp only [hnp] at hj
      by_cases hic : s.max_idle_checks ≤ s.idle_count + 1
      · rw [if_pos hic] at hj
        exact cleanup_no_stale now s.jobs j hj
      · rw [if_neg hic] at hj
        exact cleanup_no_stale now s.jobs j hj
    | some job =>
      simp only [hnp] at hj
      exact process_job_no_stale corrector now _ job.id
        (cleanup_no_stale now s.jobs) j hj

/-- The stale job used in the C6 counterexample and witness. -/
def c6staleItem : ExtractionQueueItem :=
  { witItem with status := Status.processing, started_at := some 0 }

/-- Counterexample to C6 as stated: the extraction pipeline's tick performs
no stale sweep.  At time 7200, a queue whose only row has been `processing`
since time 0 (older than the one-hour window) is left untouched by
`extraction_tick`: the row is still `processing` afterwards. -/
theorem extraction_tick_stale_cex :
    ∃ j, j ∈ (extraction_tick (fun _ => Except.ok 1)
        (fun _ => Except.ok "completed") 7200
        { db := { queue := [c6staleItem], documents := [] }
          idle_count := 0
          is_running := true
          max_idle_checks := 10 }).db.queue ∧
      j.status = Status.processing ∧ j.started_at = some 0 ∧
      0 < 7200 - 3600 := by
  refine ⟨c6staleItem, ?_, rfl, rfl, by decide⟩
  decide

/-- The stale typo job used in the C6 witness. -/
def c6staleJob : TypoCheckJob :=
  { witJob with id := 2, status := Status.processing, started_at := some 0 }

/-- Witness for the amended C6 at a concrete one-job typo state, time 7200. -/
theorem typo_tick_stale_sweep_witness :
    (c6staleJob ∈ [c6staleJob] ∧ c6staleJob.status = Status.processing ∧
      c6staleJob.started_at = some 0 ∧ 0 < 7200 - 3600) ∧
    (staleSweep 7200 c6staleJob ∈ cleanup_stale_jobs 7200 [c6staleJob] ∧
      (staleSweep 7200 c6staleJob).status = Status.failed ∧
      (staleSweep 7200 c6staleJob).error_message
        = some "Job timed out (stale processing)" ∧
      (staleSweep 7200 c6staleJob).completed_at = some 7200 ∧
      (staleSweep 7200 c6staleJob).retry_count = c6staleJob.retry_count) ∧
    (∀ j ∈ (typo_tick (fun _ => Except.ok 1) 7200
        { jobs := [c6staleJob]
          idle_count := 0
          is_running := true
          max_idle_checks := 10 }).jobs,
      j.status = Status.processing →
      ∀ t, j.started_at = some t → ¬ t < 7200 - 3600) :=
  ⟨⟨by decide, rfl, rfl, by decide⟩,
    (typo_tick_stale_sweep (fun _ => Except.ok 1) 7200
      { jobs := [c6staleJob]
        idle_count := 0
        is_running := true
        max_idle_checks := 10 }).1 c6staleJob (by decide) rfl 0 rfl (by decide),
    (typo_tick_stale_sweep (fun _ => Except.ok 1) 7200
      { jobs := [c6staleJob]
        idle_count := 0
        is_running := true
        max_idle_checks := 10 }).2⟩

/-! ## Enqueue cap and cancellation (C7, C8) -/

/-- C7: a valid, uncached typo-check submission by an owner with 3 or more
jobs in `pending`/`processing` fails with the too-many-pending error and
leaves the whole state (in particular the job table) unchanged; below the
cap, a job with status `pending` is inserted and its id returned. -/
theorem check_typo_cap (hashFn : List Char → String) (now : Nat)
    (userId : String) (data : CheckTypoRequest) (text : List Char)
    (st : TypoAppState)
    (htext : data.text = some text)
    (hne : text ≠ [])
    (hws : text.all (fun c => c.isWhitespace) = false)
    (hlen : text.length ≤ MAX_TEXT_LENGTH)
    (hcache : cacheLookup st.results userId (hashFn text)
      (data.provider.getD "gemini") = none) :
    (3 ≤ activeJobCount st.jobs userId →
      check_typo hashFn now userId (some data) st
        = (CheckTypoResponse.tooManyPending, st)) ∧
    (activeJobCount st.jobs userId < 3 →
      check_typo hashFn now userId (some data) st
        = (CheckTypoResponse.accepted st.nextJobId,
          { st with
            jobs := st.jobs ++ [newTypoJob st.nextJobId userId text
              (hashFn text) (data.provider.getD "gemini") now]
            nextJobId := st.nextJobId + 1 }) ∧
      (newTypoJob st.nextJobId userId text (hashFn text)
        (data.provider.getD "gemini") now).status = Status.pending) := by
  have hred : check_typo hashFn now userId (some data) st
      = (if 3 ≤ activeJobCount st.jobs userId then
          (CheckTypoResponse.tooManyPending, st)
        else
          (CheckTypoResponse.accepted st.nextJobId,
            { st with
              jobs := st.jobs ++ [newTypoJob st.nextJobId userId text
                (hashFn text) (data.provider.getD "gemini") now]
              nextJobId := st.nextJobId + 1 })) := by
    unfold check_typo
    dsimp only
    simp only [htext]
    rw [if_neg hne, if_neg (by simp [hws]), if_neg (by omega)]
    simp only [hcache]
    rfl
  constructor
  · intro hcap
    rw [hred, if_pos hcap]
  · intro hcap
    rw [hred, if_neg (by omega)]
    exact ⟨rfl, rfl⟩

/-- Witness for C7 on an empty state: the first submission is accepted and
inserted as the pending job 0. -/
theorem check_typo_cap_witness :
    (CheckTypoRequest.mk (some ['a']) none).text = some ['a'] ∧
    (['a'] : List Char) ≠ [] ∧
    (['a'].all (fun c => c.isWhitespace)) = false ∧
    (['a'] : List Char).length ≤ MAX_TEXT_LENGTH ∧
    cacheLookup (TypoAppState.mk [] [] 0).results "u" ((fun _ => "h") ['a'])
      ((CheckTypoRequest.mk (some ['a']) none).provider.getD "gemini") = none ∧
    ((3 ≤ activeJobCount (TypoAppState.mk [] [] 0).jobs "u" →
      check_typo (fun _ => "h") 9 "u" (some (CheckTypoRequest.mk (some ['a']) none))
          (TypoAppState.mk [] [] 0)
        = (CheckTypoResponse.tooManyPending, TypoAppState.mk [] [] 0)) ∧
    (activeJobCount (TypoAppState.mk [] [] 0).jobs "u" < 3 →
      check_typo (fun _ => "h") 9 "u" (some (CheckTypoRequest.mk (some ['a']) none))
          (TypoAppState.mk [] [] 0)
        = (CheckTypoResponse.accepted (TypoAppState.mk [] [] 0).nextJobId,
          { TypoAppState.mk [] [] 0 with
            jobs := (TypoAppState.mk [] [] 0).jobs
              ++ [newTypoJob (TypoAppState.mk [] [] 0).nextJobId "u" ['a']
                ((fun _ => "h") ['a'])
                ((CheckTypoRequest.mk (some ['a']) none).provider.getD "gemini") 9]
            nextJobId := (TypoAppState.mk [] [] 0).nextJobId + 1 }) ∧
      (newTypoJob (TypoAppState.mk [] [] 0).nextJobId "u" ['a']
        ((fun _ => "h") ['a'])
        ((CheckTypoRequest.mk (some ['a']) none).provider.getD "gemini") 9).status
        = Status.pending)) :=
  ⟨rfl, by decide, by decide, by decide, rfl,
    check_typo_cap (fun _ => "h") 9 "u" (CheckTypoRequest.mk (some ['a']) none)
      ['a'] (TypoAppState.mk [] [] 0) rfl (by decide) (by decide) (by decide) rfl⟩

/-- C8: an explicit cancel request succeeds exactly when the job is
`pending` or `processing`, setting its status to `cancelled`; a terminal job
(`completed`, `failed`, `cancelled`) yields an error and the whole job table
is returned unchanged. -/
theorem cancel_job_spec (now : Nat) (userId : String) (jobId : Nat)
    (jobs : List TypoCheckJob) (job : TypoCheckJob)
    (hfind : db_get_job jobs jobId = some job)
    (howner : job.user_id = userId) :
    ((job.status = Status.pending ∨ job.status = Status.processing) →
      (cancel_job now userId jobId jobs).1 = CancelResponse.cancelled ∧
      ∃ j', j' ∈ (cancel_job now userId jobId jobs).2 ∧ j'.id = job.id ∧
        j'.status = Status.cancelled ∧ j'.completed_at = some now) ∧
    ((job.status = Status.completed ∨ job.status = Status.failed ∨
        job.status = Status.cancelled) →
      cancel_job now userId jobId jobs = (CancelResponse.badStatus, jobs)) := by
  have hmem : job ∈ jobs := List.mem_of_find?_eq_some hfind
  have hid : job.id = jobId := by
    have := List.find?_some hfind
    simpa using this
  constructor
  · intro hst
    have hterm : ¬(job.status = Status.completed ∨ job.status = Status.failed ∨
        job.status = Status.cancelled) := by
      rcases hst with hst | hst <;> rw [hst] <;> simp
    unfold cancel_job
    rw [hfind]
    dsimp only
    rw [if_neg (by simp [howner]), if_neg hterm]
    refine ⟨rfl, ?_⟩
    exact ⟨_, mem_updateJob hmem hid, rfl, rfl, rfl⟩
  · intro hterm
    unfold cancel_job
    rw [hfind]
    dsimp only
    rw [if_neg (by simp [howner]), if_pos hterm]

/-- Witness for C8: cancelling a concrete pending job (it is the only job,
with id 1 and owner `"u"`). -/
theorem cancel_job_spec_witness :
    db_get_job [witJob] 1 = some witJob ∧
    witJob.user_id = "u" ∧
    (((witJob.status = Status.pending ∨ witJob.status = Status.processing) →
      (cancel_job 4 "u" 1 [witJob]).1 = CancelResponse.cancelled ∧
      ∃ j', j' ∈ (cancel_job 4 "u" 1 [witJob]).2 ∧ j'.id = witJob.id ∧
        j'.status = Status.cancelled ∧ j'.completed_at = some 4) ∧
    ((witJob.status = Status.completed ∨ witJob.status = Status.failed ∨
        witJob.status = Status.cancelled) →
      cancel_job 4 "u" 1 [witJob] = (CancelResponse.badStatus, [witJob]))) :=
  ⟨by decide, rfl, cancel_job_spec 4 "u" 1 [witJob] witJob (by decide) rfl⟩

/-! ## Rate limiter (C9) -/

theorem refill_noop (now : ℚ) (rl : RateLimiter) (hl : rl.last_update = now)
    (hcap : rl.tokens ≤ (rl.rate : ℚ)) : RateLimiter.refill now rl = rl := by
  unfold RateLimiter.refill
  subst hl
  simp [min_eq_right hcap]

theorem try_acquire_hit (now : ℚ) (rl : RateLimiter)
    (hl : rl.last_update = now) (hcap : rl.tokens ≤ (rl.rate : ℚ))
    (htok : (1 : ℚ) ≤ rl.tokens) :
    RateLimiter.try_acquire now rl
      = (true, { rl with tokens := rl.tokens - 1 }) := by
  unfold RateLimiter.try_acquire
  rw [refill_noop now rl hl hcap]
  rw [if_pos htok]

theorem try_acquire_miss (now : ℚ) (rl : RateLimiter)
    (hl : rl.last_update = now) (hcap : rl.tokens ≤ (rl.rate : ℚ))
    (htok : ¬ (1 : ℚ) ≤ rl.tokens) :
    RateLimiter.try_acquire now rl = (false, rl) := by
  unfold RateLimiter.try_acquire
  rw [refill_noop now rl hl hcap]
  rw [if_neg htok]

theorem acquireRun_full (now : ℚ) :
    ∀ (k : Nat) (rl : RateLimiter), rl.last_update = now →
      (k : ℚ) ≤ rl.tokens → rl.tokens ≤ (rl.rate : ℚ) →
      acquireRun k now rl
        = (List.replicate k true,
          { rl with tokens := rl.tokens - (k : ℚ) }) := by
  intro k
  induction k with
  | zero =>
    intro rl hl htok hcap
    simp [acquireRun]
  | succ k ih =>
    intro rl hl htok hcap
    have hcast : ((k : ℚ) + 1) ≤ rl.tokens := by push_cast at htok; linarith
    have h1 : (1 : ℚ) ≤ rl.tokens := by
      have : (0 : ℚ) ≤ (k : ℚ) := Nat.cast_nonneg k
      linarith
    have hta := try_acquire_hit now rl hl hcap h1
    have hrec := ih { rl with tokens := rl.tokens - 1 } hl
      (by dsimp only; linarith) (by dsimp only; linarith)
    simp only [acquireRun, hta, hrec]
    rw [Prod.mk.injEq]
    refine ⟨by simp [List.replicate_succ], ?_⟩
    congr 1
    push_cast
    ring

/-- C9 (amended): starting from a full bucket, `rate` consecutive
non-blocking acquisitions at one instant all succeed, each decrementing the
token count by exactly 1; the next immediate acquisition fails; and for
every elapsed time `e` with `per_seconds/rate ≤ e` the lazy refill
(`min(capacity, tokens + e * rate/per_seconds)`) grants at least one token,
so a further acquisition succeeds — and it is exactly one (the next
acquisition fails again) when additionally the wait grants fewer than two
tokens, i.e. `e < 2 * per_seconds/rate` (without that bound more than one
further acquisition can succeed: see the counterexample). -/
theorem rate_limiter_bucket (rate : Nat) (per t0 e : ℚ)
    (hrate : 1 ≤ rate) (hper : 0 < per)
    (he1 : per / (rate : ℚ) ≤ e) :
    (∀ k : Nat, k ≤ rate →
      acquireRun k t0 (RateLimiter.init rate per t0)
        = (List.replicate k true,
          { RateLimiter.init rate per t0 with
              tokens := (rate : ℚ) - (k : ℚ) })) ∧
    (RateLimiter.try_acquire t0
        (acquireRun rate t0 (RateLimiter.init rate per t0)).2).1 = false ∧
    (RateLimiter.try_acquire (t0 + e)
        (RateLimiter.try_acquire t0
          (acquireRun rate t0 (RateLimiter.init rate per t0)).2).2).1
      = true ∧
    (e < 2 * (per / (rate : ℚ)) →
      (RateLimiter.try_acquire (t0 + e)
          (RateLimiter.try_acquire (t0 + e)
            (RateLimiter.try_acquire t0
              (acquireRun rate t0 (RateLimiter.init rate per t0)).2).2).2).1
        = false) := by
  have hrat0 : (0 : ℚ) < (rate : ℚ) := by
    have : (1 : ℚ) ≤ (rate : ℚ) := by exact_mod_cast hrate
    linarith
  have hrat1 : (1 : ℚ) ≤ (rate : ℚ) := by exact_mod_cast hrate
  have hfull : ∀ k : Nat, k ≤ rate →
      acquireRun k t0 (RateLimiter.init rate per t0)
        = (List.replicate k true,
          { RateLimiter.init rate per t0 with
              tokens := (rate : ℚ) - (k : ℚ) }) := by
    intro k hk
    exact acquireRun_full t0 k (RateLimiter.init rate per t0) rfl
      (by simp [RateLimiter.init]; exact_mod_cast hk)
      (by simp [RateLimiter.init])
  have hrl1 : (acquireRun rate t0 (RateLimiter.init rate per t0)).2
      = RateLimiter.mk rate per 0 t0 := by
    rw [hfull rate le_rfl]
    show RateLimiter.mk rate per ((rate : ℚ) - (rate : ℚ)) t0
      = RateLimiter.mk rate per 0 t0
    rw [sub_self]
  have hmiss : RateLimiter.try_acquire t0 (RateLimiter.mk rate per 0 t0)
      = (false, RateLimiter.mk rate per 0 t0) :=
    try_acquire_miss t0 (RateLimiter.mk rate per 0 t0) rfl
      (by show (0 : ℚ) ≤ (rate : ℚ); linarith)
      (by show ¬ (1 : ℚ) ≤ (0 : ℚ); norm_num)
  have hX1 : (1 : ℚ) ≤ e * ((rate : ℚ) / per) := by
    have hrp : (0 : ℚ) < (rate : ℚ) / per := div_pos hrat0 hper
    have := mul_le_mul_of_nonneg_right he1 (le_of_lt hrp)
    calc (1 : ℚ) = per / (rate : ℚ) * ((rate : ℚ) / per) := by
          field_simp
      _ ≤ e * ((rate : ℚ) / per) := this
  have hmin1 : (1 : ℚ) ≤ min ((rate : ℚ)) (e * ((rate : ℚ) / per)) :=
    le_min hrat1 hX1
  have hre : RateLimiter.refill (t0 + e) (RateLimiter.mk rate per 0 t0)
      = RateLimiter.mk rate per
          (min ((rate : ℚ)) (e * ((rate : ℚ) / per))) (t0 + e) := by
    show RateLimiter.mk rate per
        (min ((rate : ℚ)) (0 + (t0 + e - t0) * ((rate : ℚ) / per))) (t0 + e)
      = RateLimiter.mk rate per
          (min ((rate : ℚ)) (e * ((rate : ℚ) / per))) (t0 + e)
    have harg : (0 : ℚ) + (t0 + e - t0) * ((rate : ℚ) / per)
        = e * ((rate : ℚ) / per) := by ring
    rw [harg]
  have hhit : RateLimiter.try_acquire (t0 + e) (RateLimiter.mk rate per 0 t0)
      = (true, RateLimiter.mk rate per
          (min ((rate : ℚ)) (e * ((rate : ℚ) / per)) - 1) (t0 + e)) := by
    unfold RateLimiter.try_acquire
    rw [hre]
    rw [if_pos hmin1]
  refine ⟨hfull, ?_, ?_, ?_⟩
  · rw [hrl1, hmiss]
  · rw [hrl1, hmiss, hhit]
  · intro he2
    have hX2 : e * ((rate : ℚ) / per) < 2 := by
      have hrp : (0 : ℚ) < (rate : ℚ) / per := div_pos hrat0 hper
      have := mul_lt_mul_of_pos_right he2 hrp
      calc e * ((rate : ℚ) / per)
          < 2 * (per / (rate : ℚ)) * ((rate : ℚ) / per) := this
        _ = 2 := by field_simp
    have hmin2 : min ((rate : ℚ)) (e * ((rate : ℚ) / per)) < 2 :=
      lt_of_le_of_lt (min_le_right _ _) hX2
    have hmiss2 : RateLimiter.try_acquire (t0 + e)
        (RateLimiter.mk rate per
          (min ((rate : ℚ)) (e * ((rate : ℚ) / per)) - 1) (t0 + e))
        = (false, RateLimiter.mk rate per
            (min ((rate : ℚ)) (e * ((rate : ℚ) / per)) - 1) (t0 + e)) := by
      refine try_acquire_miss (t0 + e) _ rfl ?_ ?_
      · show min ((rate : ℚ)) (e * ((rate : ℚ) / per)) - 1 ≤ (rate : ℚ)
        have := min_le_left ((rate : ℚ)) (e * ((rate : ℚ) / per))
        linarith
      · show ¬ (1 : ℚ) ≤ min ((rate : ℚ)) (e * ((rate : ℚ) / per)) - 1
        intro habs
        linarith
    rw [hrl1, hmiss, hhit, hmiss2]

/-- Counterexample to C9 as stated: with `rate = 2`, `per_seconds = 1`, the
two initial acquisitions succeed and the third fails; after an elapsed time
of `1 ≥ per_seconds/rate` the refill grants two tokens, so TWO further
acquisitions succeed, not exactly one. -/
theorem rate_limiter_cex :
    (RateLimiter.try_acquire 0 (RateLimiter.init 2 1 0)).1 = true ∧
    (RateLimiter.try_acquire 0
      (RateLimiter.try_acquire 0 (RateLimiter.init 2 1 0)).2).1 = true ∧
    (RateLimiter.try_acquire 0
      (RateLimiter.try_acquire 0
        (RateLimiter.try_acquire 0 (RateLimiter.init 2 1 0)).2).2).1 = false ∧
    (1 : ℚ) / 2 ≤ 1 ∧
    (RateLimiter.try_acquire 1
      (RateLimiter.try_acquire 0
        (RateLimiter.try_acquire 0
          (RateLimiter.try_acquire 0 (RateLimiter.init 2 1 0)).2).2).2).1
      = true ∧
    (RateLimiter.try_acquire 1
      (RateLimiter.try_acquire 1
        (RateLimiter.try_acquire 0
          (RateLimiter.try_acquire 0
            (RateLimiter.try_acquire 0 (RateLimiter.init 2 1 0)).2).2).2).2).1
      = true := by
  norm_num [RateLimiter.init, RateLimiter.try_acquire, RateLimiter.refill]

/-- Witness for the amended C9 at `rate = 2`, `per_seconds = 1`, `t0 = 0`,
`e = 1/2`. -/
theorem rate_limiter_bucket_witness :
    1 ≤ 2 ∧ (0 : ℚ) < 1 ∧ (1 : ℚ) / (2 : Nat) ≤ 1 / 2 ∧
    ((∀ k : Nat, k ≤ 2 →
      acquireRun k 0 (RateLimiter.init 2 1 0)
        = (List.replicate k true,
          { RateLimiter.init 2 1 0 with
              tokens := ((2 : Nat) : ℚ) - (k : ℚ) })) ∧
    (RateLimiter.try_acquire 0
        (acquireRun 2 0 (RateLimiter.init 2 1 0)).2).1 = false ∧
    (RateLimiter.try_acquire (0 + 1 / 2)
        (RateLimiter.try_acquire 0
          (acquireRun 2 0 (RateLimiter.init 2 1 0)).2).2).1 = true ∧
    ((1 : ℚ) / 2 < 2 * ((1 : ℚ) / (2 : Nat)) →
      (RateLimiter.try_acquire (0 + 1 / 2)
          (RateLimiter.try_acquire (0 + 1 / 2)
            (RateLimiter.try_acquire 0
              (acquireRun 2 0 (RateLimiter.init 2 1 0)).2).2).2).1 = false)) :=
  ⟨by norm_num, by norm_num, by norm_num,
    rate_limiter_bucket 2 1 0 (1 / 2) (by norm_num) (by norm_num)
      (by norm_num)⟩

end PdfQS
